import Mathlib

/-!
Shallow embedding of the linebot-rs webhook server core, together with
theorems checking the natural-language specification against it.

Conventions of the embedding:
* Rust bytes (`u8`) are `Nat` values `< 256`; byte strings are `List Nat`.
* `std::time::Instant` is a `Nat` timestamp and `Duration` a `Nat` number of
  the same unit; `Instant::duration_since` and `Duration::saturating_sub`
  are both saturating, which is exactly `Nat` subtraction.
* Each entry point that reads the clock receives the current time `now`
  (resp. a formatted time string) as an explicit argument; a single call of
  `check_rate_limit` is modelled as one atomic step at one instant, which is
  how the `DashMap` per-key locking makes it behave.
* The outbound LINE client (`LineApiClient::reply_message`) is an external
  collaborator; it is passed in as a function `Deliver` returning success or
  an error, and dispatch additionally returns the list of reply calls it
  attempted, so that "no reply is sent" is observable.
-/

/-! ## Base64 (standard alphabet, canonical padding)

Model of `base64::engine::general_purpose::STANDARD` as used by
`src/utils/signature.rs`: encode with padding; decode requires canonical
padding and zero trailing bits, and rejects any character outside the
alphabet. -/

def b64Alphabet : List Char :=
  ("ABCDEFGHIJKLMNOPQRSTUVWXYZabcdefghijklmnopqrstuvwxyz0123456789+/").data

def b64EncChar (n : Nat) : Char := b64Alphabet.getD n 'A'

def b64DecChar (c : Char) : Option Nat := b64Alphabet.indexOf? c

def base64Encode : List Nat → List Char
  | a :: b :: c :: rest =>
    b64EncChar (a / 4) :: b64EncChar (a % 4 * 16 + b / 16) ::
      b64EncChar (b % 16 * 4 + c / 64) :: b64EncChar (c % 64) :: base64Encode rest
  | [a, b] => [b64EncChar (a / 4), b64EncChar (a % 4 * 16 + b / 16),
      b64EncChar (b % 16 * 4), '=']
  | [a] => [b64EncChar (a / 4), b64EncChar (a % 4 * 16), '=', '=']
  | [] => []

def b64DecodeLast (p q r s : Char) : Option (List Nat) :=
  if r = '=' then
    if s = '=' then
      match b64DecChar p, b64DecChar q with
      | some x, some y => if y % 16 = 0 then some [x * 4 + y / 16] else none
      | _, _ => none
    else none
  else if s = '=' then
    match b64DecChar p, b64DecChar q, b64DecChar r with
    | some x, some y, some z =>
      if z % 4 = 0 then some [x * 4 + y / 16, y % 16 * 16 + z / 4] else none
    | _, _, _ => none
  else
    match b64DecChar p, b64DecChar q, b64DecChar r, b64DecChar s with
    | some x, some y, some z, some w =>
      some [x * 4 + y / 16, y % 16 * 16 + z / 4, z % 4 * 64 + w]
    | _, _, _, _ => none

def base64Decode : List Char → Option (List Nat)
  | [] => some []
  | p :: q :: r :: s :: rest =>
    if rest.isEmpty then b64DecodeLast p q r s
    else
      match b64DecChar p, b64DecChar q, b64DecChar r, b64DecChar s,
          base64Decode rest with
      | some x, some y, some z, some w, some tl =>
        some ((x * 4 + y / 16) :: (y % 16 * 16 + z / 4) :: (z % 4 * 64 + w) :: tl)
      | _, _, _, _, _ => none
  | _ => none

theorem b64DecChar_b64EncChar : ∀ n < 64, b64DecChar (b64EncChar n) = some n := by
  decide

theorem b64EncChar_ne_pad : ∀ n < 64, b64EncChar n ≠ '=' := by
  decide

theorem base64Encode_eq_nil_iff (l : List Nat) : base64Encode l = [] ↔ l = [] := by
  match l with
  | [] => simp [base64Encode]
  | [a] => simp [base64Encode]
  | [a, b] => simp [base64Encode]
  | a :: b :: c :: rest => simp [base64Encode]

theorem base64_decode_encode :
    ∀ l : List Nat, (∀ x ∈ l, x < 256) → base64Decode (base64Encode l) = some l
  | [], _ => rfl
  | [a], h => by
    have ha : a < 256 := h a (by simp)
    have h1 : a / 4 < 64 := by omega
    have h2 : a % 4 * 16 < 64 := by omega
    simp only [base64Encode, base64Decode, List.isEmpty_nil, if_true, b64DecodeLast,
      if_pos rfl, b64DecChar_b64EncChar _ h1, b64DecChar_b64EncChar _ h2]
    rw [if_pos (by omega)]
    congr 2
    omega
  | [a, b], h => by
    have ha : a < 256 := h a (by simp)
    have hb : b < 256 := h b (by simp)
    have e1 := b64DecChar_b64EncChar (a / 4) (by omega)
    have e2 := b64DecChar_b64EncChar (a % 4 * 16 + b / 16) (by omega)
    have e3 := b64DecChar_b64EncChar (b % 16 * 4) (by omega)
    have n3 := b64EncChar_ne_pad (b % 16 * 4) (by omega)
    have m4 : b % 16 * 4 % 4 = 0 := Nat.mul_mod_left _ _
    simp [base64Encode, base64Decode, b64DecodeLast, e1, e2, e3, n3, m4]
    omega
  | a :: b :: c :: rest, h => by
    have ha : a < 256 := h a (by simp)
    have hb : b < 256 := h b (by simp)
    have hc : c < 256 := h c (by simp)
    have e1 := b64DecChar_b64EncChar (a / 4) (by omega)
    have e2 := b64DecChar_b64EncChar (a % 4 * 16 + b / 16) (by omega)
    have e3 := b64DecChar_b64EncChar (b % 16 * 4 + c / 64) (by omega)
    have e4 := b64DecChar_b64EncChar (c % 64) (by omega)
    have n3 := b64EncChar_ne_pad (b % 16 * 4 + c / 64) (by omega)
    have n4 := b64EncChar_ne_pad (c % 64) (by omega)
    have ih := base64_decode_encode rest (fun x hx => h x (by simp [hx]))
    rcases Decidable.em (rest = []) with hre | hre
    · subst hre
      simp [base64Encode, base64Decode, b64DecodeLast, e1, e2, e3, e4, n3, n4]
      omega
    · have hne : (base64Encode rest).isEmpty = false := by
        cases hcase : base64Encode rest with
        | nil => exact absurd ((base64Encode_eq_nil_iff rest).mp hcase) hre
        | cons x xs => rfl
      simp [base64Encode, base64Decode, hne, e1, e2, e3, e4, ih]
      omega

/-! ## SHA-256 and HMAC-SHA256

Executable model of the `sha2`/`hmac` crates (FIPS 180-4 SHA-256 and
RFC 2104 HMAC), operating on bytes as `Nat` values `< 256` with 32-bit words
reduced explicitly modulo `2 ^ 32`. -/

def w32 (x : Nat) : Nat := x % 2 ^ 32

def rotr32 (n x : Nat) : Nat := w32 (x >>> n ||| x <<< (32 - n))

def sha256K : List Nat :=
  [1116352408, 1899447441, 3049323471, 3921009573, 961987163,
   1508970993, 2453635748, 2870763221, 3624381080, 310598401,
   607225278, 1426881987, 1925078388, 2162078206, 2614888103,
   3248222580, 3835390401, 4022224774, 264347078, 604807628,
   770255983, 1249150122, 1555081692, 1996064986, 2554220882,
   2821834349, 2952996808, 3210313671, 3336571891, 3584528711,
   113926993, 338241895, 666307205, 773529912, 1294757372,
   1396182291, 1695183700, 1986661051, 2177026350, 2456956037,
   2730485921, 2820302411, 3259730800, 3345764771, 3516065817,
   3600352804, 4094571909, 275423344, 430227734, 506948616,
   659060556, 883997877, 958139571, 1322822218, 1537002063,
   1747873779, 1955562222, 2024104815, 2227730452, 2361852424,
   2428436474, 2756734187, 3204031479, 3329325298]

def sha256H0 : List Nat :=
  [1779033703, 3144134277, 1013904242, 2773480762, 1359893119,
   2600822924, 528734635, 1541459225]

def sha256ScheduleExt : Nat → List Nat → List Nat
  | 0, ws => ws
  | n + 1, ws =>
    let i := ws.length
    let w15 := ws.getD (i - 15) 0
    let w2 := ws.getD (i - 2) 0
    let w16 := ws.getD (i - 16) 0
    let w7 := ws.getD (i - 7) 0
    let s0 := w32 (rotr32 7 w15 ^^^ rotr32 18 w15 ^^^ (w15 >>> 3))
    let s1 := w32 (rotr32 17 w2 ^^^ rotr32 19 w2 ^^^ (w2 >>> 10))
    sha256ScheduleExt n (ws ++ [w32 (w16 + s0 + w7 + s1)])

def sha256Round (st : List Nat) (kw : Nat × Nat) : List Nat :=
  match st with
  | [a, b, c, d, e, f, g, hh] =>
    let s1 := rotr32 6 e ^^^ rotr32 11 e ^^^ rotr32 25 e
    let ch := (e &&& f) ^^^ ((e ^^^ 0xffffffff) &&& g)
    let temp1 := w32 (hh + s1 + ch + kw.1 + kw.2)
    let s0 := rotr32 2 a ^^^ rotr32 13 a ^^^ rotr32 22 a
    let maj := (a &&& b) ^^^ (a &&& c) ^^^ (b &&& c)
    let temp2 := w32 (s0 + maj)
    [w32 (temp1 + temp2), a, b, c, w32 (d + temp1), e, f, g]
  | st => st

def sha256Compress (h : List Nat) (block : List Nat) : List Nat :=
  let ws := sha256ScheduleExt 48 block
  let fin := (sha256K.zip ws).foldl sha256Round h
  match h, fin with
  | [h0, h1, h2, h3, h4, h5, h6, h7], [a, b, c, d, e, f, g, hh] =>
    [w32 (h0 + a), w32 (h1 + b), w32 (h2 + c), w32 (h3 + d),
     w32 (h4 + e), w32 (h5 + f), w32 (h6 + g), w32 (h7 + hh)]
  | _, _ => h

def sha256Blocks (h : List Nat) : List Nat → List Nat
  | w0 :: w1 :: w2 :: w3 :: w4 :: w5 :: w6 :: w7 ::
      w8 :: w9 :: w10 :: w11 :: w12 :: w13 :: w14 :: w15 :: rest =>
    sha256Blocks (sha256Compress h
      [w0, w1, w2, w3, w4, w5, w6, w7, w8, w9, w10, w11, w12, w13, w14, w15]) rest
  | _ => h

def sha256Pad (msg : List Nat) : List Nat :=
  let len := msg.length
  let padZeros := (64 + 55 - len % 64) % 64
  let bitLen := len * 8
  msg ++ 128 :: List.replicate padZeros 0 ++
    [bitLen / 2 ^ 56 % 256, bitLen / 2 ^ 48 % 256, bitLen / 2 ^ 40 % 256,
     bitLen / 2 ^ 32 % 256, bitLen / 2 ^ 24 % 256, bitLen / 2 ^ 16 % 256,
     bitLen / 2 ^ 8 % 256, bitLen % 256]

def bytesToWords32 : List Nat → List Nat
  | a :: b :: c :: d :: rest =>
    (a * 2 ^ 24 + b * 2 ^ 16 + c * 2 ^ 8 + d) :: bytesToWords32 rest
  | _ => []

def wordToBytes (w : Nat) : List Nat :=
  [w / 2 ^ 24 % 256, w / 2 ^ 16 % 256, w / 2 ^ 8 % 256, w % 256]

def sha256 (msg : List Nat) : List Nat :=
  ((sha256Blocks sha256H0 (bytesToWords32 (sha256Pad msg))).map wordToBytes).flatten

def hmacSha256 (key msg : List Nat) : List Nat :=
  let k0 := if 64 < key.length then sha256 key else key
  let kp := k0 ++ List.replicate (64 - k0.length) 0
  sha256 ((kp.map (fun b => b ^^^ 0x5c)) ++
    sha256 ((kp.map (fun b => b ^^^ 0x36)) ++ msg))

theorem sha256_mem_lt {msg : List Nat} : ∀ x ∈ sha256 msg, x < 256 := by
  intro x hx
  simp only [sha256, List.mem_flatten, List.mem_map] at hx
  obtain ⟨l, ⟨w, _, rfl⟩, hxl⟩ := hx
  simp only [wordToBytes, List.mem_cons, List.not_mem_nil, or_false] at hxl
  rcases hxl with rfl | rfl | rfl | rfl <;> exact Nat.mod_lt _ (by omega)

/-! ## verify_signature (src/utils/signature.rs)

`HmacSha256::new_from_slice` never fails for SHA-256 (any key length is
accepted), so the error arm at signature.rs:19-21 is dead and the model
omits it.  `Mac::verify_slice` is a constant-time comparison of the full
tag, i.e. extensionally an equality test on the byte lists. -/

def strBytes (s : String) : List Nat := s.toUTF8.data.toList.map (fun b => b.toNat)

def stripPrefixCh : List Char → List Char → Option (List Char)
  | [], s => some s
  | _ :: _, [] => none
  | p :: ps, c :: cs => if p = c then stripPrefixCh ps cs else none

def verify_signature (channel_secret : String) (body : List Nat)
    (signature : String) : Bool :=
  match stripPrefixCh ("sha256=").data signature.data with
  | none => false
  | some tail =>
    match base64Decode tail with
    | none => false
    | some decoded => decoded == hmacSha256 (strBytes channel_secret) body

theorem stripPrefixCh_eq_some (p : List Char) :
    ∀ s t, stripPrefixCh p s = some t ↔ s = p ++ t := by
  induction p with
  | nil => intro s t; simp [stripPrefixCh]
  | cons c cs ih =>
    intro s t
    match s with
    | [] => simp [stripPrefixCh]
    | d :: ds =>
      simp only [stripPrefixCh, List.cons_append, List.cons.injEq]
      rcases Decidable.em (c = d) with hcd | hcd
      · subst hcd; simp [ih]
      · rw [if_neg hcd]
        constructor
        · intro hfalse; exact Option.noConfusion hfalse
        · rintro ⟨hdc, -⟩; exact absurd hdc.symm hcd

theorem hmacSha256_mem_lt {k m : List Nat} : ∀ x ∈ hmacSha256 k m, x < 256 := by
  unfold hmacSha256
  exact sha256_mem_lt

/-- C1: `verify_signature(secret, body, h)` returns true exactly when `h` is
the literal prefix `"sha256="` followed by a standard-base64 encoding of the
HMAC-SHA256 of `body` under key `secret` (first conjunct: the well-signed
header verifies; second conjunct: the full characterization, from which the
three rejection cases follow — a header without the prefix, a suffix that
fails to base64-decode, and decoded bytes different from the recomputed
HMAC, e.g. any bit mutation of body or signature that changes the MAC, all
make the match in the second conjunct impossible and hence the result
false). -/
theorem C1_verify_signature_correct :
    (∀ (secret : String) (body : List Nat),
      verify_signature secret body
        (String.mk (("sha256=").data ++
          base64Encode (hmacSha256 (strBytes secret) body))) = true) ∧
    (∀ (secret : String) (body : List Nat) (hv : String),
      verify_signature secret body hv = true ↔
        ∃ tail : List Char, hv.data = ("sha256=").data ++ tail ∧
          base64Decode tail = some (hmacSha256 (strBytes secret) body)) := by
  constructor
  · intro secret body
    have hrt := base64_decode_encode (hmacSha256 (strBytes secret) body) hmacSha256_mem_lt
    unfold verify_signature
    rw [show (String.mk (("sha256=").data ++
        base64Encode (hmacSha256 (strBytes secret) body))).data =
        ("sha256=").data ++ base64Encode (hmacSha256 (strBytes secret) body) from rfl]
    rw [(stripPrefixCh_eq_some _ _ _).mpr rfl]
    simp [hrt]
  · intro secret body hv
    unfold verify_signature
    cases hsp : stripPrefixCh ("sha256=").data hv.data with
    | none =>
      dsimp only
      constructor
      · intro hcontra; exact Bool.noConfusion hcontra
      · rintro ⟨tail, ht1, -⟩
        rw [ht1, (stripPrefixCh_eq_some _ _ _).mpr rfl] at hsp
        exact Option.noConfusion hsp
    | some tail =>
      dsimp only
      have hdata : hv.data = ("sha256=").data ++ tail :=
        (stripPrefixCh_eq_some _ _ _).mp hsp
      cases hdec : base64Decode tail with
      | none =>
        dsimp only
        constructor
        · intro hcontra; exact Bool.noConfusion hcontra
        · rintro ⟨t2, ht2, hd2⟩
          have ht : tail = t2 := List.append_cancel_left (hdata.symm.trans ht2)
          rw [← ht, hdec] at hd2
          exact Option.noConfusion hd2
      | some decoded =>
        dsimp only
        simp only [beq_iff_eq]
        constructor
        · intro heq
          exact ⟨tail, hdata, by rw [hdec, heq]⟩
        · rintro ⟨t2, ht2, hd2⟩
          have ht : tail = t2 := List.append_cancel_left (hdata.symm.trans ht2)
          rw [← ht, hdec] at hd2
          exact Option.some.inj hd2

/-! ## RateLimiter (src/utils/rate_limit.rs)

The `DashMap<String, RateLimitEntry>` is modelled as an association list
with pairwise-distinct keys (the map invariant); `Instant` is a `Nat`
timestamp.  `check_rate_limit` takes the map state explicitly and returns
the result together with the new state.  Inside one call the several
`Instant::now()` reads (rate_limit.rs:103, inside `increment` at :35 and
inside `time_until_reset` at :51) are modelled as the single instant `now`
at which the atomic per-key check executes. -/

structure RateLimitEntry where
  count : Nat
  last_reset : Nat
  last_request : Nat
deriving DecidableEq, Repr

def RateLimitEntry.new (now : Nat) : RateLimitEntry :=
  { count := 1, last_reset := now, last_request := now }

def RateLimitEntry.increment (e : RateLimitEntry) (now : Nat)
    (window_duration : Nat) : RateLimitEntry :=
  if window_duration ≤ now - e.last_reset then
    { count := 1, last_reset := now, last_request := now }
  else
    { count := e.count + 1, last_reset := e.last_reset, last_request := now }

def RateLimitEntry.time_until_reset (e : RateLimitEntry) (now : Nat)
    (window_duration : Nat) : Nat :=
  window_duration - (now - e.last_reset)

structure RateLimitConfig where
  max_requests : Nat
  window_duration : Nat
  cleanup_interval : Nat
deriving DecidableEq, Repr

def RateLimitConfig.default : RateLimitConfig :=
  { max_requests := 10, window_duration := 60, cleanup_interval := 300 }

inductive RateLimitResult where
  | Allowed (remaining : Nat) (reset_after : Nat)
  | Exceeded (retry_after : Nat)
deriving DecidableEq, Repr

/-- The rate limiter map state: one entry per key. -/
abbrev RLState := List (String × RateLimitEntry)

def lookupEntry : RLState → String → Option RateLimitEntry
  | [], _ => none
  | p :: ps, key => if p.1 = key then some p.2 else lookupEntry ps key

def setEntry (st : RLState) (key : String) (e : RateLimitEntry) : RLState :=
  st.map (fun p => if p.1 = key then (key, e) else p)

def check_rate_limit (cfg : RateLimitConfig) (now : Nat) (key : String)
    (st : RLState) : RateLimitResult × RLState :=
  match lookupEntry st key with
  | some entry =>
    if cfg.window_duration ≤ now - entry.last_reset then
      (.Allowed (cfg.max_requests - 1) cfg.window_duration,
        setEntry st key (RateLimitEntry.new now))
    else if cfg.max_requests ≤ entry.count then
      (.Exceeded (entry.time_until_reset now cfg.window_duration), st)
    else
      let e := entry.increment now cfg.window_duration
      (.Allowed (cfg.max_requests - e.count)
        (e.time_until_reset now cfg.window_duration), setEntry st key e)
  | none =>
    (.Allowed (cfg.max_requests - 1) cfg.window_duration,
      (key, RateLimitEntry.new now) :: st)

/-- A sequence of admission checks for one key at the given instants,
collecting the results. -/
def check_calls (cfg : RateLimitConfig) (key : String) :
    List Nat → RLState → List RateLimitResult × RLState
  | [], st => ([], st)
  | t :: ts, st =>
    let r := check_rate_limit cfg t key st
    let rs := check_calls cfg key ts r.2
    (r.1 :: rs.1, rs.2)

/-- A sequence of admission checks for arbitrary keys and instants,
returning the final map state. -/
def check_seq (cfg : RateLimitConfig) : List (String × Nat) → RLState → RLState
  | [], st => st
  | (key, t) :: rest, st =>
    check_seq cfg rest (check_rate_limit cfg t key st).2

def cleanup_expired_entries (cfg : RateLimitConfig) (now : Nat)
    (entries : RLState) : RLState :=
  let to_remove := (entries.filter (fun p =>
    decide (cfg.window_duration < now - p.2.last_reset) &&
    decide (cfg.window_duration < now - p.2.last_request))).map (·.1)
  to_remove.foldl (fun acc key => acc.filter (fun p => p.1 != key)) entries

/-! Characterization lemmas for a single `check_rate_limit` step. -/

theorem check_rate_limit_fresh {cfg : RateLimitConfig} {now : Nat} {key : String}
    {st : RLState} (h : lookupEntry st key = none) :
    check_rate_limit cfg now key st =
      (.Allowed (cfg.max_requests - 1) cfg.window_duration,
        (key, RateLimitEntry.new now) :: st) := by
  unfold check_rate_limit
  rw [h]

theorem check_rate_limit_reset {cfg : RateLimitConfig} {now : Nat} {key : String}
    {st : RLState} {e : RateLimitEntry} (h : lookupEntry st key = some e)
    (hw : cfg.window_duration ≤ now - e.last_reset) :
    check_rate_limit cfg now key st =
      (.Allowed (cfg.max_requests - 1) cfg.window_duration,
        setEntry st key (RateLimitEntry.new now)) := by
  unfold check_rate_limit
  rw [h]
  dsimp only
  rw [if_pos hw]

theorem check_rate_limit_exceeded {cfg : RateLimitConfig} {now : Nat} {key : String}
    {st : RLState} {e : RateLimitEntry} (h : lookupEntry st key = some e)
    (hw : now - e.last_reset < cfg.window_duration)
    (hc : cfg.max_requests ≤ e.count) :
    check_rate_limit cfg now key st =
      (.Exceeded (cfg.window_duration - (now - e.last_reset)), st) := by
  unfold check_rate_limit
  rw [h]
  dsimp only
  rw [if_neg (by omega), if_pos hc]
  rfl

theorem check_rate_limit_increment {cfg : RateLimitConfig} {now : Nat} {key : String}
    {st : RLState} {e : RateLimitEntry} (h : lookupEntry st key = some e)
    (hw : now - e.last_reset < cfg.window_duration)
    (hc : e.count < cfg.max_requests) :
    check_rate_limit cfg now key st =
      (.Allowed (cfg.max_requests - (e.count + 1))
          (cfg.window_duration - (now - e.last_reset)),
        setEntry st key
          { count := e.count + 1, last_reset := e.last_reset, last_request := now }) := by
  unfold check_rate_limit
  rw [h]
  dsimp only
  rw [if_neg (by omega), if_neg (by omega)]
  unfold RateLimitEntry.increment
  rw [if_neg (by omega)]
  rfl

/-! Lookup and setEntry interaction lemmas. -/

theorem lookupEntry_setEntry_self {st : RLState} {key : String}
    {v e : RateLimitEntry} (h : lookupEntry st key = some v) :
    lookupEntry (setEntry st key e) key = some e := by
  induction st with
  | nil => simp [lookupEntry] at h
  | cons p ps ih =>
    rcases Decidable.em (p.1 = key) with hk | hk
    · simp [setEntry, lookupEntry, hk]
    · simp only [lookupEntry, if_neg hk] at h
      simp only [setEntry, List.map_cons, if_neg hk, lookupEntry]
      exact ih h

theorem lookupEntry_setEntry_other {st : RLState} {key k2 : String}
    {e : RateLimitEntry} (h : k2 ≠ key) :
    lookupEntry (setEntry st key e) k2 = lookupEntry st k2 := by
  induction st with
  | nil => simp [setEntry, lookupEntry]
  | cons p ps ih =>
    simp only [setEntry, List.map_cons] at ih ⊢
    rcases Decidable.em (p.1 = key) with hk | hk
    · simp [lookupEntry, hk, Ne.symm h, ih]
    · rcases Decidable.em (p.1 = k2) with he | he
      · simp [lookupEntry, hk, he, h]
      · simp [lookupEntry, hk, he, ih]

/-- The results the spec predicts for a run of in-window calls that starts
with the counter at `c`: each call increments the counter and reports
`remaining = maxRequests - new count` and the time left in the window. -/
def allowedSeq (cfg : RateLimitConfig) (t0 : Nat) : Nat → List Nat → List RateLimitResult
  | _, [] => []
  | c, t :: ts =>
    .Allowed (cfg.max_requests - (c + 1)) (cfg.window_duration - (t - t0)) ::
      allowedSeq cfg t0 (c + 1) ts

theorem allowedSeq_mem (cfg : RateLimitConfig) (t0 : Nat) :
    ∀ (ts : List Nat) (c : Nat) (r : RateLimitResult), r ∈ allowedSeq cfg t0 c ts →
      ∃ rem ra, r = .Allowed rem ra := by
  intro ts
  induction ts with
  | nil => intro c r hr; simp [allowedSeq] at hr
  | cons t ts ih =>
    intro c r hr
    rcases (List.mem_cons).mp hr with h | h
    · exact ⟨_, _, h⟩
    · exact ih (c + 1) r h

theorem check_calls_in_window (cfg : RateLimitConfig) (k : String) :
    ∀ (ts : List Nat) (st : RLState) (c q t0 : Nat),
      lookupEntry st k = some ⟨c, t0, q⟩ →
      (∀ t ∈ ts, t - t0 < cfg.window_duration) →
      c + ts.length ≤ cfg.max_requests →
      (check_calls cfg k ts st).1 = allowedSeq cfg t0 c ts ∧
      ∃ q2, lookupEntry (check_calls cfg k ts st).2 k =
        some ⟨c + ts.length, t0, q2⟩ := by
  intro ts
  induction ts with
  | nil =>
    intro st c q t0 h _ _
    exact ⟨rfl, q, by simpa using h⟩
  | cons t ts ih =>
    intro st c q t0 h hts hcnt
    have hw : t - t0 < cfg.window_duration := hts t (by simp)
    have hc : c < cfg.max_requests := by
      simp only [List.length_cons] at hcnt
      omega
    have hstep := @check_rate_limit_increment cfg t k st ⟨c, t0, q⟩ h hw hc
    have h2 : lookupEntry (setEntry st k
        { count := c + 1, last_reset := t0, last_request := t }) k =
        some { count := c + 1, last_reset := t0, last_request := t } :=
      lookupEntry_setEntry_self h
    obtain ⟨ihres, q2, ihl⟩ := ih _ (c + 1) t t0 h2
      (fun x hx => hts x (by simp [hx]))
      (by simp only [List.length_cons] at hcnt ⊢; omega)
    unfold check_calls
    rw [hstep]
    dsimp only
    refine ⟨?_, ?_⟩
    · rw [allowedSeq, ihres]
    · refine ⟨q2, ?_⟩
      have harith : c + 1 + ts.length = c + (ts.length + 1) := by omega
      rw [show (t :: ts).length = ts.length + 1 from rfl, ← harith]
      exact ihl

/-- C2: for a limiter with `maxRequests = N > 0` and a key not yet in the
map, `N` calls within one window (first at `t0`, later ones less than
`windowDuration` after `t0`) all return `Allowed`, the `i`-th reporting
`remaining = N - (count after the call)`; the `(N+1)`-th call within the
window returns `Exceeded`; and a call at `v` with `windowDuration ≤ v - t0`
returns `Allowed` with `remaining = N - 1` and the entry reset to
`count = 1, windowStart = v`. -/
theorem C2_rate_limit_window (cfg : RateLimitConfig) (k : String) (st : RLState)
    (t0 : Nat) (ts : List Nat) (u v : Nat)
    (hfresh : lookupEntry st k = none)
    (hlen : ts.length + 1 = cfg.max_requests)
    (hts : ∀ t ∈ ts, t - t0 < cfg.window_duration)
    (hu : u - t0 < cfg.window_duration)
    (hv : cfg.window_duration ≤ v - t0) :
    (check_calls cfg k (t0 :: ts) st).1 =
        .Allowed (cfg.max_requests - 1) cfg.window_duration ::
          allowedSeq cfg t0 1 ts ∧
    (∀ r ∈ (check_calls cfg k (t0 :: ts) st).1, ∃ rem ra, r = .Allowed rem ra) ∧
    (check_rate_limit cfg u k (check_calls cfg k (t0 :: ts) st).2).1 =
        .Exceeded (cfg.window_duration - (u - t0)) ∧
    (check_rate_limit cfg v k
        (check_rate_limit cfg u k (check_calls cfg k (t0 :: ts) st).2).2).1 =
        .Allowed (cfg.max_requests - 1) cfg.window_duration ∧
    lookupEntry (check_rate_limit cfg v k
        (check_rate_limit cfg u k (check_calls cfg k (t0 :: ts) st).2).2).2 k =
        some ⟨1, v, v⟩ := by
  have hfirst := @check_rate_limit_fresh cfg t0 k st hfresh
  have h1 : lookupEntry ((k, RateLimitEntry.new t0) :: st) k =
      some ⟨1, t0, t0⟩ := by
    simp [lookupEntry, RateLimitEntry.new]
  obtain ⟨hres, q2, hlook⟩ := check_calls_in_window cfg k ts _ 1 t0 t0 h1 hts
    (by omega)
  have hcc0 : check_calls cfg k (t0 :: ts) st =
      ((check_rate_limit cfg t0 k st).1 ::
        (check_calls cfg k ts (check_rate_limit cfg t0 k st).2).1,
       (check_calls cfg k ts (check_rate_limit cfg t0 k st).2).2) := rfl
  have hcc : check_calls cfg k (t0 :: ts) st =
      (.Allowed (cfg.max_requests - 1) cfg.window_duration ::
        (check_calls cfg k ts ((k, RateLimitEntry.new t0) :: st)).1,
       (check_calls cfg k ts ((k, RateLimitEntry.new t0) :: st)).2) := by
    rw [hcc0, hfirst]
  have hcount : 1 + ts.length = cfg.max_requests := by omega
  rw [hcount] at hlook
  have hexc := @check_rate_limit_exceeded cfg u k _ ⟨cfg.max_requests, t0, q2⟩
    hlook (by simpa using hu) (by simp)
  have hres2 := @check_rate_limit_reset cfg v k _ ⟨cfg.max_requests, t0, q2⟩
    hlook (by simpa using hv)
  refine ⟨?_, ?_, ?_, ?_, ?_⟩
  · rw [hcc]
    dsimp only
    rw [hres]
  · intro r hr
    rw [hcc] at hr
    dsimp only at hr
    rcases (List.mem_cons).mp hr with h | h
    · exact ⟨_, _, h⟩
    · rw [hres] at h
      exact allowedSeq_mem cfg t0 ts 1 r h
  · rw [hcc]
    dsimp only
    rw [hexc]
  · rw [hcc]
    dsimp only
    rw [hexc]
    dsimp only
    rw [hres2]
  · rw [hcc]
    dsimp only
    rw [hexc]
    dsimp only
    rw [hres2]
    dsimp only
    exact lookupEntry_setEntry_self hlook

/-- Witness for C2 at `maxRequests = 2`, `windowDuration = 60`: calls at
instants 0 and 10 are allowed, the third call at 20 is rejected with
`retryAfter = 40`, and a call at 60 is allowed again. -/
theorem C2_rate_limit_window_witness :
    (check_rate_limit ⟨2, 60, 300⟩ 20 "a"
        (check_calls ⟨2, 60, 300⟩ "a" [0, 10] []).2).1 = .Exceeded 40 ∧
    (check_rate_limit ⟨2, 60, 300⟩ 60 "a"
        (check_rate_limit ⟨2, 60, 300⟩ 20 "a"
          (check_calls ⟨2, 60, 300⟩ "a" [0, 10] []).2).2).1 = .Allowed 1 60 := by
  have h := C2_rate_limit_window ⟨2, 60, 300⟩ "a" [] 0 [10] 20 60 rfl
    (by decide) (by decide) (by decide) (by decide)
  exact ⟨h.2.2.1, h.2.2.2.1⟩

theorem check_step_count_bound {cfg : RateLimitConfig} {now : Nat} {key : String}
    {st : RLState} (hmax : 0 < cfg.max_requests)
    (hinv : ∀ k e, lookupEntry st k = some e → e.count ≤ cfg.max_requests) :
    ∀ k e, lookupEntry (check_rate_limit cfg now key st).2 k = some e →
      e.count ≤ cfg.max_requests := by
  intro k e hk
  cases hl : lookupEntry st key with
  | none =>
    rw [check_rate_limit_fresh hl] at hk
    dsimp only at hk
    rcases Decidable.em (key = k) with hkey | hkey
    · simp only [lookupEntry, if_pos hkey] at hk
      have he := Option.some.inj hk
      rw [← he]
      simpa [RateLimitEntry.new] using hmax
    · simp only [lookupEntry, if_neg hkey] at hk
      exact hinv k e hk
  | some entry =>
    rcases Decidable.em (cfg.window_duration ≤ now - entry.last_reset) with hw | hw
    · rw [check_rate_limit_reset hl hw] at hk
      dsimp only at hk
      rcases Decidable.em (k = key) with hkey | hkey
      · subst hkey
        rw [lookupEntry_setEntry_self hl] at hk
        have he := Option.some.inj hk
        rw [← he]
        simpa [RateLimitEntry.new] using hmax
      · rw [lookupEntry_setEntry_other hkey] at hk
        exact hinv k e hk
    · rcases Decidable.em (cfg.max_requests ≤ entry.count) with hc | hc
      · rw [check_rate_limit_exceeded hl (by omega) hc] at hk
        dsimp only at hk
        exact hinv k e hk
      · rw [check_rate_limit_increment hl (by omega) (by omega)] at hk
        dsimp only at hk
        rcases Decidable.em (k = key) with hkey | hkey
        · subst hkey
          rw [lookupEntry_setEntry_self hl] at hk
          have he := Option.some.inj hk
          rw [← he]
          dsimp only
          omega
        · rw [lookupEntry_setEntry_other hkey] at hk
          exact hinv k e hk

theorem check_seq_count_bound (cfg : RateLimitConfig) (hmax : 0 < cfg.max_requests) :
    ∀ (calls : List (String × Nat)) (st : RLState),
      (∀ k e, lookupEntry st k = some e → e.count ≤ cfg.max_requests) →
      ∀ k e, lookupEntry (check_seq cfg calls st) k = some e →
        e.count ≤ cfg.max_requests := by
  intro calls
  induction calls with
  | nil => intro st hinv; exact hinv
  | cons c rest ih =>
    intro st hinv
    match c with
    | (key, t) =>
      exact ih _ (check_step_count_bound hmax hinv)

/-- C4: with `maxRequests > 0`, after any sequence of `check_rate_limit`
calls from a state whose entries all satisfy `count ≤ maxRequests` (e.g. the
empty map), every entry still satisfies `count ≤ maxRequests`; and once an
entry has `count ≥ maxRequests` with its window still open, a further call
for that key returns `Exceeded` and leaves the whole map state (hence the
entry) unchanged. -/
theorem C4_count_bounded_and_exceeded_no_change :
    (∀ (cfg : RateLimitConfig) (calls : List (String × Nat)) (st : RLState),
      0 < cfg.max_requests →
      (∀ k e, lookupEntry st k = some e → e.count ≤ cfg.max_requests) →
      ∀ k e, lookupEntry (check_seq cfg calls st) k = some e →
        e.count ≤ cfg.max_requests) ∧
    (∀ (cfg : RateLimitConfig) (now : Nat) (k : String) (st : RLState)
        (e : RateLimitEntry),
      lookupEntry st k = some e →
      now - e.last_reset < cfg.window_duration →
      cfg.max_requests ≤ e.count →
      check_rate_limit cfg now k st =
        (.Exceeded (cfg.window_duration - (now - e.last_reset)), st)) :=
  ⟨fun cfg calls st hmax hinv => check_seq_count_bound cfg hmax calls st hinv,
   fun _ _ _ _ _ hl hw hc => check_rate_limit_exceeded hl hw hc⟩

/-- Witness for C4: a saturated entry (`count = maxRequests = 10`) inside an
open window is rejected with the time left in the window and the map is
unchanged; and the invariant holds concretely after two calls on the empty
map. -/
theorem C4_count_bounded_witness :
    check_rate_limit RateLimitConfig.default 5 "a" [("a", ⟨10, 0, 0⟩)] =
      (.Exceeded 55, [("a", ⟨10, 0, 0⟩)]) :=
  C4_count_bounded_and_exceeded_no_change.2 RateLimitConfig.default 5 "a"
    [("a", ⟨10, 0, 0⟩)] ⟨10, 0, 0⟩ rfl (by decide) (by decide)

/-! ## The rate-limit middleware (src/utils/rate_limit.rs:203-241)

`rate_limit_middleware` constructs `RateLimiter::new(RateLimitConfig::default())`
inside the request handler (rate_limit.rs:206), so every admission decision
is taken against a freshly created empty map. -/

/-- The admission decision `rate_limit_middleware` takes for one request:
a check against the map of a limiter constructed at that moment, i.e. the
empty map. -/
def rate_limit_middleware_decision (now : Nat) (key : String) : RateLimitResult :=
  (check_rate_limit RateLimitConfig.default now key []).1

/-- C3 is violated by the code: `rate_limit_middleware` consults a fresh
limiter per request, so its decision is `Allowed` (with `remaining = 9`)
for every request and every key — in particular the 11th request of a key
inside one window is NOT rejected.  A single shared limiter map, by
contrast, rejects the 11th call, as the second conjunct shows. -/
theorem C3_fresh_limiter_always_allows :
    (∀ (now : Nat) (key : String),
      rate_limit_middleware_decision now key = .Allowed 9 60) ∧
    ((check_calls RateLimitConfig.default "k" (List.replicate 11 0) []).1.getLast? =
      some (.Exceeded 60)) := by
  constructor
  · intro now key
    rfl
  · decide

/-! ## Background sweep lemmas (src/utils/rate_limit.rs:138-161) -/

theorem foldl_remove_eq_filter :
    ∀ (ks : List String) (st : RLState),
      ks.foldl (fun acc key => acc.filter (fun p => p.1 != key)) st =
        st.filter (fun p => !(ks.contains p.1)) := by
  intro ks
  induction ks with
  | nil =>
    intro st
    simp
  | cons k ks ih =>
    intro st
    rw [List.foldl_cons, ih, List.filter_filter]
    apply List.filter_congr
    intro p _
    simp only [List.contains_cons, Bool.not_or, Bool.and_comm]
    rcases Decidable.em (p.1 = k) with he | he
    · simp [he]
    · rfl

/-- The removal predicate of the sweep: the window has closed strictly more
than `windowDuration` ago and the key has not been seen for strictly more
than `windowDuration`. -/
def sweepRemoves (cfg : RateLimitConfig) (now : Nat)
    (p : String × RateLimitEntry) : Bool :=
  decide (cfg.window_duration < now - p.2.last_reset) &&
    decide (cfg.window_duration < now - p.2.last_request)

theorem cleanup_eq_filter (cfg : RateLimitConfig) (now : Nat) (entries : RLState)
    (hnd : (entries.map Prod.fst).Nodup) :
    cleanup_expired_entries cfg now entries =
      entries.filter (fun p => !(sweepRemoves cfg now p)) := by
  have hinj := List.inj_on_of_nodup_map hnd
  unfold cleanup_expired_entries
  rw [foldl_remove_eq_filter]
  apply List.filter_congr
  intro p hp
  show (!(((entries.filter (fun q => sweepRemoves cfg now q)).map
      Prod.fst).contains p.1)) = (!(sweepRemoves cfg now p))
  have hiff : p.1 ∈ ((entries.filter (fun q => sweepRemoves cfg now q)).map
      Prod.fst) ↔ sweepRemoves cfg now p = true := by
    constructor
    · intro hm
      obtain ⟨q, hq, hq1⟩ := List.mem_map.mp hm
      obtain ⟨hqe, hqbad⟩ := List.mem_filter.mp hq
      have heq : q = p := hinj hqe hp hq1
      exact heq ▸ hqbad
    · intro hbad
      exact List.mem_map.mpr ⟨p, List.mem_filter.mpr ⟨hp, hbad⟩, rfl⟩
  rcases hcase : sweepRemoves cfg now p with _ | _
  · suffices hcf : (((entries.filter (fun q => sweepRemoves cfg now q)).map
        Prod.fst).contains p.1) = false by rw [hcf]
    cases hc : (((entries.filter (fun q => sweepRemoves cfg now q)).map
        Prod.fst).contains p.1) with
    | false => rfl
    | true =>
      have hm : p.1 ∈ ((entries.filter (fun q => sweepRemoves cfg now q)).map
          Prod.fst) := by simpa using hc
      have hbad := hiff.mp hm
      rw [hcase] at hbad
      exact Bool.noConfusion hbad
  · have hc : (((entries.filter (fun q => sweepRemoves cfg now q)).map
        Prod.fst).contains p.1) = true := by
      simpa using hiff.mpr hcase
    rw [hc]

/-- C9: on a map with distinct keys (the DashMap invariant), the background
sweep removes exactly the entries whose `now - windowStart` and
`now - lastSeen` both strictly exceed `windowDuration`; it never removes an
entry whose `lastSeen` is within `windowDuration`; and re-running it with no
intervening traffic (same instant, no new calls) is a no-op on the
survivors, so no entry is ever removed twice. -/
theorem C9_sweep_removes_exactly (cfg : RateLimitConfig) (now : Nat)
    (entries : RLState) (hnd : (entries.map Prod.fst).Nodup) :
    (∀ p : String × RateLimitEntry,
      p ∈ cleanup_expired_entries cfg now entries ↔
        p ∈ entries ∧ ¬(cfg.window_duration < now - p.2.last_reset ∧
          cfg.window_duration < now - p.2.last_request)) ∧
    (∀ p ∈ entries, now - p.2.last_request ≤ cfg.window_duration →
      p ∈ cleanup_expired_entries cfg now entries) ∧
    cleanup_expired_entries cfg now (cleanup_expired_entries cfg now entries) =
      cleanup_expired_entries cfg now entries := by
  have hpred : ∀ p : String × RateLimitEntry, (!(sweepRemoves cfg now p)) = true ↔
      ¬(cfg.window_duration < now - p.2.last_reset ∧
        cfg.window_duration < now - p.2.last_request) := by
    intro p
    by_cases hA : cfg.window_duration < now - p.2.last_reset <;>
      by_cases hB : cfg.window_duration < now - p.2.last_request <;>
      simp [sweepRemoves, hA, hB]
  have h1 : ∀ p : String × RateLimitEntry,
      p ∈ cleanup_expired_entries cfg now entries ↔
        p ∈ entries ∧ ¬(cfg.window_duration < now - p.2.last_reset ∧
          cfg.window_duration < now - p.2.last_request) := by
    intro p
    rw [cleanup_eq_filter cfg now entries hnd, List.mem_filter, hpred p]
  have hnd2 : (((entries.filter (fun p => !(sweepRemoves cfg now p))).map
      Prod.fst)).Nodup :=
    List.Nodup.sublist (List.Sublist.map Prod.fst (List.filter_sublist entries)) hnd
  refine ⟨h1, ?_, ?_⟩
  · intro p hp hreq
    exact (h1 p).mpr ⟨hp, fun hcon => absurd hcon.2 (by omega)⟩
  · have hself : (entries.filter (fun p => !(sweepRemoves cfg now p))).filter
        (fun p => !(sweepRemoves cfg now p)) =
        entries.filter (fun p => !(sweepRemoves cfg now p)) :=
      List.filter_eq_self.mpr (fun a ha => by
        simpa using (List.mem_filter.mp ha).2)
    rw [cleanup_eq_filter cfg now entries hnd, cleanup_eq_filter cfg now _ hnd2,
      hself]

/-- Witness for C9 with `windowDuration = 60` at `now = 100`: the entry idle
since 0 is swept, the entry last seen at 90 survives, and a second sweep is
a no-op. -/
theorem C9_sweep_removes_exactly_witness :
    (("fresh", (⟨1, 0, 90⟩ : RateLimitEntry)) ∈
        cleanup_expired_entries RateLimitConfig.default 100
          [("old", ⟨1, 0, 0⟩), ("fresh", ⟨1, 0, 90⟩)]) ∧
    (("old", (⟨1, 0, 0⟩ : RateLimitEntry)) ∉
        cleanup_expired_entries RateLimitConfig.default 100
          [("old", ⟨1, 0, 0⟩), ("fresh", ⟨1, 0, 90⟩)]) ∧
    cleanup_expired_entries RateLimitConfig.default 100
        (cleanup_expired_entries RateLimitConfig.default 100
          [("old", ⟨1, 0, 0⟩), ("fresh", ⟨1, 0, 90⟩)]) =
      cleanup_expired_entries RateLimitConfig.default 100
        [("old", ⟨1, 0, 0⟩), ("fresh", ⟨1, 0, 90⟩)] := by
  have h := C9_sweep_removes_exactly RateLimitConfig.default 100
    [("old", ⟨1, 0, 0⟩), ("fresh", ⟨1, 0, 90⟩)] (by decide)
  refine ⟨h.2.1 _ (by decide) (by decide), ?_, h.2.2⟩
  intro hmem
  have := ((h.1 _).mp hmem).2
  exact this (by decide)

/-! ## Data model (src/models/events.rs, src/models/messages.rs) -/

inductive Source where
  | user (user_id : String)
  | group (group_id : String) (user_id : Option String)
  | room (room_id : String) (user_id : Option String)
deriving DecidableEq, Repr

/-- `ContentProvider` from events.rs; the second constructor is named
`external` in the source. -/
inductive ContentProvider where
  | line
  | ext (original_content_url : String)
deriving DecidableEq, Repr

inductive MessageType where
  | text (text : String)
  | sticker (sticker_id package_id : String)
  | image (content_provider : ContentProvider)
deriving DecidableEq, Repr

structure MessageEvent where
  reply_token : String
  message : MessageType
  timestamp : Nat
  source : Source
  mode : String
deriving DecidableEq, Repr

structure FollowEvent where
  reply_token : String
  timestamp : Nat
  source : Source
  mode : String
deriving DecidableEq, Repr

structure UnfollowEvent where
  timestamp : Nat
  source : Source
  mode : String
deriving DecidableEq, Repr

structure JoinEvent where
  reply_token : String
  timestamp : Nat
  source : Source
  mode : String
deriving DecidableEq, Repr

structure LeaveEvent where
  timestamp : Nat
  source : Source
  mode : String
deriving DecidableEq, Repr

structure PostbackData where
  data : String
deriving DecidableEq, Repr

structure PostbackEvent where
  reply_token : String
  postback : PostbackData
  timestamp : Nat
  source : Source
  mode : String
deriving DecidableEq, Repr

inductive Event where
  | message (e : MessageEvent)
  | follow (e : FollowEvent)
  | unfollow (e : UnfollowEvent)
  | join (e : JoinEvent)
  | leave (e : LeaveEvent)
  | postback (e : PostbackEvent)
deriving DecidableEq, Repr

/-- `Action` from messages.rs (renamed: `Action` is taken by Mathlib). -/
inductive MsgAction where
  | message (label text : String)
  | postback (label data : String) (display_text : Option String)
  | uri (label uri : String)
deriving DecidableEq, Repr

inductive TemplateType where
  | buttons (text : String) (actions : List MsgAction)
      (thumbnail_image_url image_aspect_ratio image_size image_background_color
        title : Option String)
deriving DecidableEq, Repr

inductive OutgoingMessage where
  | text (text : String)
  | sticker (package_id sticker_id : String)
  | template (alt_text : String) (template : TemplateType)
deriving DecidableEq, Repr

/-- Rust `str::contains(substring)`: `needle` occurs contiguously in the
haystack. -/
def containsSlice (needle : List Char) : List Char → Bool
  | [] => needle.isEmpty
  | c :: rest => needle.isPrefixOf (c :: rest) || containsSlice needle rest

/-- Rust `str::trim`, character-wise (leading and trailing whitespace
removed).  `Char.isWhitespace` covers the ASCII whitespace relevant to the
command vocabulary. -/
def trimChars (l : List Char) : List Char :=
  ((l.dropWhile Char.isWhitespace).reverse.dropWhile Char.isWhitespace).reverse

/-- Rust `str::to_lowercase` followed by `trim` as applied by
`handle_text_message`.  `Char.toLower` lowercases ASCII letters; the CJK
command words are untouched by lowercasing, as in Rust. -/
def lowerTrim (s : String) : String :=
  String.mk (trimChars (s.data.map Char.toLower))

/-! ## Validators (src/utils/validation.rs) -/

inductive ValidationError where
  | TooLong (max_length actual : Nat)
  | TooShort (min_length actual : Nat)
  | InvalidCharacters
  | Forbidden
  | Empty
deriving DecidableEq, Repr

structure TextValidator where
  max_length : Nat
  min_length : Nat
  forbidden_words : List String
  allow_empty : Bool
deriving DecidableEq, Repr

/-- `TextValidator::default` (= `TextValidator::new`).  The `HashSet` of
forbidden words is modelled as a list; `validate` only tests membership, so
iteration order is irrelevant. -/
def TextValidator.new : TextValidator :=
  { max_length := 2000, min_length := 0,
    forbidden_words := ["spam", "垃圾", "廣告"], allow_empty := true }

/-- `char::is_control` (Unicode category Cc: U+0000-U+001F and
U+007F-U+009F). -/
def charIsControl (c : Char) : Bool :=
  c.toNat < 32 || (127 ≤ c.toNat && c.toNat ≤ 159)

def TextValidator.validate (v : TextValidator) (text : String) :
    Except ValidationError Unit :=
  if text = "" then
    if v.allow_empty then .ok () else .error .Empty
  else
    let text_len := text.data.length
    if v.max_length < text_len then
      .error (.TooLong v.max_length text_len)
    else if text_len < v.min_length then
      .error (.TooShort v.min_length text_len)
    else
      let text_lower := text.data.map Char.toLower
      if v.forbidden_words.any (fun w => containsSlice w.data text_lower) then
        .error .Forbidden
      else if text.data.any (fun c =>
          charIsControl c && c ≠ '\n' && c ≠ '\r' && c ≠ '\t') then
        .error .InvalidCharacters
      else
        .ok ()

/-- `ReplyTokenValidator::validate`.  Rust `str::len` is the UTF-8 byte
length, hence `String.utf8ByteSize`. -/
def ReplyTokenValidator.validate (reply_token : String) :
    Except ValidationError Unit :=
  if reply_token = "" then
    .error .Empty
  else
    let len := reply_token.utf8ByteSize
    if ¬(10 ≤ len ∧ len ≤ 100) then
      .error (.TooLong 100 len)
    else if ¬(reply_token.data.all (fun c =>
        c.isAlphanum || c = '_' || c = '-')) then
      .error .InvalidCharacters
    else
      .ok ()

/-! ## Event dispatch (src/webhook/handlers.rs)

The outbound client is the collaborator `Deliver`; dispatch returns its
`Result` together with the list of `reply_message(token, messages)` calls
attempted, so that delivery side effects are observable.  The `time`
command formats `chrono::Utc::now()`; that formatted string is the
`now_str` argument.  Logging and metrics calls have no effect on control
flow or results and are omitted. -/

abbrev ReplyCall := String × List OutgoingMessage

abbrev Deliver := String → List OutgoingMessage → Except String Unit

inductive DispatchErr where
  | invalidToken (e : ValidationError)
  | deliveryFailed (e : String)
deriving DecidableEq, Repr

deriving instance DecidableEq for Except

/-- The command matching of `handle_text_message`, split at the `match`
scrutinee: `s` is `text.to_lowercase().trim()` and `t` the original text
(used by the `strip_prefix` arms). -/
def handle_text_core (now_str s t : String) : List OutgoingMessage :=
  if s = "hello" ∨ s = "hi" ∨ s = "你好" ∨ s = "哈囉" then
    [.text "你好！有什麼可以幫助你的嗎？"]
  else if s = "help" ∨ s = "幫助" ∨ s = "說明" then
    [.text "可用指令：\n• hello - 打招呼\n• help - 顯示說明\n• time - 顯示目前時間\n• sticker - 發送貼圖"]
  else if s = "time" ∨ s = "時間" then
    [.text ("目前時間：" ++ now_str)]
  else if s = "sticker" ∨ s = "貼圖" then
    [OutgoingMessage.sticker "1" "1"]
  else if ("echo ").data.isPrefixOf t.data then
    [.text ("回音：" ++ String.mk (t.data.drop 5))]
  else if ("回音 ").data.isPrefixOf t.data then
    [.text ("回音：" ++ String.mk (t.data.drop 3))]
  else
    [.text "我不太理解你的意思，試試輸入 \x27help\x27 查看可用指令。"]

def handle_text_message (now_str text : String) : List OutgoingMessage :=
  handle_text_core now_str (lowerTrim text) text

/-- Attempt one `reply_message` call and propagate its failure, recording
the attempted call. -/
def attemptReply (deliver : Deliver) (token : String)
    (msgs : List OutgoingMessage) : Except DispatchErr Unit × List ReplyCall :=
  match deliver token msgs with
  | .ok _ => (.ok (), [(token, msgs)])
  | .error e => (.error (.deliveryFailed e), [(token, msgs)])

def handle_message_event (deliver : Deliver) (now_str : String)
    (event : MessageEvent) : Except DispatchErr Unit × List ReplyCall :=
  match ReplyTokenValidator.validate event.reply_token with
  | .error e => (.error (.invalidToken e), [])
  | .ok _ =>
    let text_validator : TextValidator := { TextValidator.new with max_length := 1000 }
    let response_messages :=
      match event.message with
      | .text t =>
        match text_validator.validate t with
        | .error _ => [OutgoingMessage.text "抱歉，您的訊息包含無效內容。"]
        | .ok _ => handle_text_message now_str t
      | .sticker _ _ => [OutgoingMessage.text "收到貼圖！"]
      | .image _ => [OutgoingMessage.text "收到圖片！"]
    if response_messages.isEmpty then (.ok (), [])
    else attemptReply deliver event.reply_token response_messages

def process_event (deliver : Deliver) (now_str : String) (event : Event) :
    Except DispatchErr Unit × List ReplyCall :=
  match event with
  | .message me => handle_message_event deliver now_str me
  | .follow fe =>
    attemptReply deliver fe.reply_token [OutgoingMessage.text "歡迎使用 LINE Bot！"]
  | .unfollow _ => (.ok (), [])
  | .join je =>
    attemptReply deliver je.reply_token
      [OutgoingMessage.text "大家好！我是你們的 LINE Bot 助手！"]
  | .leave _ => (.ok (), [])
  | .postback pe =>
    attemptReply deliver pe.reply_token
      [OutgoingMessage.text ("收到 postback: " ++ pe.postback.data)]

/-- The `for event in payload.events` loop of `handle_webhook`: each event
is processed; an `Err` is logged (`error!`) and the loop continues. -/
def run_events (deliver : Deliver) (now_str : String) :
    List Event → List (Except DispatchErr Unit) × List ReplyCall
  | [] => ([], [])
  | e :: rest =>
    let r := process_event deliver now_str e
    let rs := run_events deliver now_str rest
    (r.1 :: rs.1, r.2 ++ rs.2)

/-- `handle_webhook`: process the decoded batch and answer `StatusCode::OK`
(200) unconditionally. -/
def handle_webhook (deliver : Deliver) (now_str : String)
    (events : List Event) :
    Nat × List (Except DispatchErr Unit) × List ReplyCall :=
  let rs := run_events deliver now_str events
  (200, rs.1, rs.2)

theorem run_events_eq (deliver : Deliver) (now_str : String) :
    ∀ events : List Event,
      run_events deliver now_str events =
        (events.map (fun e => (process_event deliver now_str e).1),
         (events.map (fun e => (process_event deliver now_str e).2)).flatten) := by
  intro events
  induction events with
  | nil => rfl
  | cons e rest ih =>
    unfold run_events
    rw [ih]
    simp

/-- C5: the webhook handler processes every event of the decoded batch in
order and independently — the outcome list is exactly the per-event
dispatch outcomes and the attempted reply calls are their concatenation in
batch order, so an error on one event never suppresses the dispatch of a
later one — and the HTTP status is 200 regardless of how many per-event
dispatches failed. -/
theorem C5_batch_isolation (deliver : Deliver) (now_str : String)
    (events : List Event) :
    handle_webhook deliver now_str events =
      (200, events.map (fun e => (process_event deliver now_str e).1),
        (events.map (fun e => (process_event deliver now_str e).2)).flatten) := by
  unfold handle_webhook
  rw [run_events_eq]

/-! ## Signature middleware (src/webhook/server.rs:62-101)

The `x-line-signature` header slot is `none` when absent and
`some none` when present but not convertible by `HeaderValue::to_str`
(both outcomes of the external `http` crate).  Reading the body is
transport I/O and cannot fail in this pure model (its failure arm at
server.rs:86-91 also answers 400 and never reaches the handler). -/

inductive MwOutcome where
  | passedToHandler (body : List Nat)
  | rejected (status : Nat) (msg : String)
deriving DecidableEq, Repr

def signature_middleware (channel_secret : String) (path : String)
    (header : Option (Option String)) (body : List Nat) : MwOutcome :=
  if path = "/health" then .passedToHandler body
  else
    match header with
    | none => .rejected 400 "Missing signature header"
    | some none => .rejected 400 "Invalid signature header"
    | some (some s) =>
      if verify_signature channel_secret body s then .passedToHandler body
      else .rejected 401 "Invalid signature"

/-- C6: on a non-`/health` request, a missing or unreadable
`X-Line-Signature` header is rejected with 400, a readable header that
fails verification is rejected with 401 (a distinct outcome), and the
inner handler is reached exactly when verification succeeds. -/
theorem C6_signature_middleware (secret path : String)
    (header : Option (Option String)) (body : List Nat)
    (hpath : path ≠ "/health") :
    (header = none →
      signature_middleware secret path header body =
        .rejected 400 "Missing signature header") ∧
    (header = some none →
      signature_middleware secret path header body =
        .rejected 400 "Invalid signature header") ∧
    (∀ s, header = some (some s) →
      verify_signature secret body s = false →
      signature_middleware secret path header body =
        .rejected 401 "Invalid signature") ∧
    (∀ s, header = some (some s) →
      verify_signature secret body s = true →
      signature_middleware secret path header body = .passedToHandler body) ∧
    (∀ b2, signature_middleware secret path header body = .passedToHandler b2 →
      ∃ s, header = some (some s) ∧ verify_signature secret body s = true ∧
        b2 = body) := by
  unfold signature_middleware
  rw [if_neg hpath]
  refine ⟨?_, ?_, ?_, ?_, ?_⟩
  · rintro rfl; rfl
  · rintro rfl; rfl
  · rintro s rfl hv
    dsimp only
    rw [hv]
    rfl
  · rintro s rfl hv
    dsimp only
    rw [hv]
    rfl
  · intro b2
    cases header with
    | none =>
      intro hcon
      exact MwOutcome.noConfusion hcon
    | some o =>
      cases o with
      | none =>
        intro hcon
        exact MwOutcome.noConfusion hcon
      | some s =>
        dsimp only
        cases hv : verify_signature secret body s with
        | false =>
          intro hcon
          exact MwOutcome.noConfusion hcon
        | true =>
          intro hcon
          exact ⟨s, rfl, hv, (MwOutcome.passedToHandler.inj hcon).symm⟩

/-- Witness for C6: a `/webhook` request without the header is answered
400. -/
theorem C6_signature_middleware_witness :
    signature_middleware "sec" "/webhook" none [] =
      .rejected 400 "Missing signature header" :=
  (C6_signature_middleware "sec" "/webhook" none [] (by decide)).1 rfl

/-- C7: the reply-token validator accepts exactly non-empty tokens of
UTF-8 byte length between 10 and 100 made only of ASCII alphanumerics,
underscore and hyphen; and for a Message event the token is validated
before anything else — on failure, `handle_message_event` returns the
`invalidToken` error immediately and the list of attempted reply calls is
empty. -/
theorem C7_reply_token_validated_first :
    (∀ tok : String,
      ReplyTokenValidator.validate tok = .ok () ↔
        (tok ≠ "" ∧ 10 ≤ tok.utf8ByteSize ∧ tok.utf8ByteSize ≤ 100 ∧
          tok.data.all (fun c => c.isAlphanum || c = '_' || c = '-') = true)) ∧
    (∀ (deliver : Deliver) (now_str : String) (ev : MessageEvent)
        (err : ValidationError),
      ReplyTokenValidator.validate ev.reply_token = .error err →
      handle_message_event deliver now_str ev =
        (.error (.invalidToken err), [])) := by
  constructor
  · intro tok
    unfold ReplyTokenValidator.validate
    rcases Decidable.em (tok = "") with he | he
    · rw [if_pos he]
      constructor
      · intro hcon; exact Except.noConfusion hcon
      · rintro ⟨hne, -⟩; exact absurd he hne
    · rw [if_neg he]
      dsimp only
      rcases Decidable.em (10 ≤ tok.utf8ByteSize ∧ tok.utf8ByteSize ≤ 100)
        with hl | hl
      · rw [if_neg (not_not_intro hl)]
        cases hca : tok.data.all (fun c => c.isAlphanum || c = '_' || c = '-') with
        | true =>
          simp [he, hl.1, hl.2]
        | false =>
          constructor
          · intro hcon
            simp at hcon
          · rintro ⟨-, -, -, hall⟩
            exact Bool.noConfusion hall
      · rw [if_pos hl]
        constructor
        · intro hcon; exact Except.noConfusion hcon
        · rintro ⟨-, h10, h100, -⟩
          exact absurd ⟨h10, h100⟩ hl
  · intro deliver now_str ev err herr
    unfold handle_message_event
    rw [herr]

/-- Witness for C7: the 3-byte token "abc" is rejected and dispatch for an
event carrying it errors with no reply call attempted. -/
theorem C7_reply_token_validated_first_witness :
    handle_message_event (fun _ _ => .ok ()) ""
      ⟨"abc", .text "hi", 0, .user "u", "active"⟩ =
      (.error (.invalidToken (.TooLong 100 3)), []) :=
  C7_reply_token_validated_first.2 (fun _ _ => .ok ()) ""
    ⟨"abc", .text "hi", 0, .user "u", "active"⟩ (.TooLong 100 3) (by decide)

/-- C8: for a Message event with a valid reply token whose text fails the
content validator, dispatch substitutes the single generic refusal reply,
attempts exactly one reply call carrying it, and — when the delivery
collaborator succeeds — reports the event as handled successfully. -/
theorem C8_invalid_text_refusal (deliver : Deliver) (now_str : String)
    (ev : MessageEvent) (t : String) (err : ValidationError)
    (hmsg : ev.message = .text t)
    (htok : ReplyTokenValidator.validate ev.reply_token = .ok ())
    (htxt : ({ TextValidator.new with max_length := 1000 } : TextValidator).validate t
      = .error err) :
    (handle_message_event deliver now_str ev).2 =
      [(ev.reply_token, [OutgoingMessage.text "抱歉，您的訊息包含無效內容。"])] ∧
    (deliver ev.reply_token [OutgoingMessage.text "抱歉，您的訊息包含無效內容。"]
        = .ok () →
      handle_message_event deliver now_str ev =
        (.ok (), [(ev.reply_token,
          [OutgoingMessage.text "抱歉，您的訊息包含無效內容。"])])) := by
  unfold handle_message_event
  rw [htok]
  dsimp only
  rw [hmsg]
  dsimp only at htxt ⊢
  rw [htxt]
  dsimp only
  constructor
  · unfold attemptReply
    cases hd : deliver ev.reply_token
        [OutgoingMessage.text "抱歉，您的訊息包含無效內容。"] with
    | ok u => rfl
    | error e => rfl
  · intro hdel
    unfold attemptReply
    rw [hdel]
    rfl

/-- Witness for C8: a valid token with the forbidden text "spam" yields one
successful refusal reply. -/
theorem C8_invalid_text_refusal_witness :
    handle_message_event (fun _ _ => .ok ()) ""
      ⟨"valid_token_123", .text "spam", 0, .user "u", "active"⟩ =
      (.ok (), [("valid_token_123",
        [OutgoingMessage.text "抱歉，您的訊息包含無效內容。"])]) := by
  have h := C8_invalid_text_refusal (fun _ _ => .ok ()) ""
    ⟨"valid_token_123", .text "spam", 0, .user "u", "active"⟩ "spam" .Forbidden
    rfl (by decide) (by decide)
  exact h.2 rfl

/-- The fixed command vocabulary matched on the lowercased, trimmed
input. -/
def commandVocab : List String :=
  ["hello", "hi", "你好", "哈囉", "help", "幫助", "說明", "time", "時間",
   "sticker", "貼圖"]

/-- The two `strip_prefix` fallthrough forms of `handle_text_message`,
which are matched on the original (untrimmed, case-preserved) text. -/
def echoForm (t : String) : Bool :=
  ("echo ").data.isPrefixOf t.data || ("回音 ").data.isPrefixOf t.data

theorem handle_text_core_congr (now_str s : String) {t u : String}
    (ht : echoForm t = false) (hu : echoForm u = false) :
    handle_text_core now_str s t = handle_text_core now_str s u := by
  unfold echoForm at ht hu
  simp only [Bool.or_eq_false_iff] at ht hu
  unfold handle_text_core
  simp [ht.1, ht.2, hu.1, hu.2]

/-- C10: `handle_text_message` always returns exactly one outgoing message
(first conjunct); away from the two `strip_prefix` echo forms its result
depends only on the lowercased, whitespace-trimmed input, which is how the
command match is case-insensitive (second conjunct); any input that matches
no command and no echo form gets the fixed fallback reply (third conjunct);
and a Message text event passing token and content validation attempts
exactly one reply call, carrying that single-message list (fourth
conjunct). -/
theorem C10_single_reply_classifier :
    (∀ now_str t : String, (handle_text_message now_str t).length = 1) ∧
    (∀ (now_str : String) {t u : String}, lowerTrim t = lowerTrim u →
      echoForm t = false → echoForm u = false →
      handle_text_message now_str t = handle_text_message now_str u) ∧
    (∀ now_str t : String, lowerTrim t ∉ commandVocab → echoForm t = false →
      handle_text_message now_str t =
        [.text "我不太理解你的意思，試試輸入 \x27help\x27 查看可用指令。"]) ∧
    (∀ (deliver : Deliver) (now_str : String) (ev : MessageEvent) (t : String),
      ev.message = .text t →
      ReplyTokenValidator.validate ev.reply_token = .ok () →
      ({ TextValidator.new with max_length := 1000 } : TextValidator).validate t
        = .ok () →
      (handle_message_event deliver now_str ev).2 =
        [(ev.reply_token, handle_text_message now_str t)]) := by
  have hlen : ∀ now_str t : String, (handle_text_message now_str t).length = 1 := by
    intro now_str t
    unfold handle_text_message handle_text_core
    split_ifs <;> rfl
  refine ⟨hlen, ?_, ?_, ?_⟩
  · intro now_str t u hlt ht hu
    unfold handle_text_message
    rw [hlt]
    exact handle_text_core_congr now_str (lowerTrim u) ht hu
  · intro now_str t hcmd hecho
    unfold echoForm at hecho
    simp only [Bool.or_eq_false_iff] at hecho
    simp only [commandVocab, List.mem_cons, List.not_mem_nil, or_false,
      not_or] at hcmd
    unfold handle_text_message handle_text_core
    rw [if_neg (by tauto), if_neg (by tauto), if_neg (by tauto),
      if_neg (by tauto), if_neg (by simp [hecho.1]), if_neg (by simp [hecho.2])]
  · intro deliver now_str ev t hmsg htok htxt
    unfold handle_message_event
    rw [htok]
    dsimp only
    rw [hmsg]
    dsimp only at htxt ⊢
    rw [htxt]
    dsimp only
    have hne : (handle_text_message now_str t).isEmpty = false := by
      cases hcase : handle_text_message now_str t with
      | nil =>
        have := hlen now_str t
        rw [hcase] at this
        exact absurd this (by simp)
      | cons m ms => rfl
    rw [hne, if_neg Bool.false_ne_true]
    unfold attemptReply
    cases hd : deliver ev.reply_token (handle_text_message now_str t) with
    | ok u => rfl
    | error e => rfl

/-- Witness for C10: a valid-token Message event with text "hello" attempts
exactly one reply call with the single greeting message. -/
theorem C10_single_reply_classifier_witness :
    (handle_message_event (fun _ _ => .ok ()) ""
        ⟨"valid_token_123", .text "hello", 0, .user "u", "active"⟩).2 =
      [("valid_token_123", handle_text_message "" "hello")] ∧
    handle_text_message "" "hello" = [.text "你好！有什麼可以幫助你的嗎？"] := by
  refine ⟨?_, by decide⟩
  exact C10_single_reply_classifier.2.2.2 (fun _ _ => .ok ()) ""
    ⟨"valid_token_123", .text "hello", 0, .user "u", "active"⟩ "hello"
    rfl (by decide) (by decide)
